import Mathlib

/-!
Verification of the indicator pipeline in `finance_merged.py`.

The script fetches a symbol universe, pulls one year of daily bars per
symbol, computes technical-indicator columns with pandas (rolling means,
EMA-based MACD, RSI, Bollinger Bands, Stochastic Oscillator, ATR), keeps
the trailing 5-row window per symbol, and aggregates the windows into a
report.  We embed the numeric pipeline over exact rationals: a pandas
column becomes a `List (Option ℚ)` aligned index-for-index with the bars,
`none` standing for NaN (the undefined/warm-up sentinel).  The pandas
conventions that matter are modelled explicitly:

* `rolling(window=w)` aggregations use `min_periods = w` (the default), so
  an output entry is defined only when the whole `w`-window is in range and
  NaN-free;
* `Series.where(cond, 0)` replaces entries whose condition is `False` with
  0, and a NaN compares `False`, so the leading NaN of `diff()` becomes 0;
* `DataFrame.max(axis=1)` skips NaN (the default `skipna=True`);
* float division `x / 0` saturates (`inf` feeding `100 - 100/(1+rs)` gives
  exactly 100, and `0/0` is NaN); the RSI and Stochastic definitions below
  carry those branches explicitly.

The Bollinger standard deviation is a float square root, which has no
exact rational counterpart; the engine is therefore parametrised by the
host's square-root function `sqrtq : ℚ → ℚ`.  No claim below depends on
the value of `sqrtq` (only on definedness of the band columns), so every
theorem quantifies over it.
-/

namespace FinanceMerged

/-- One daily bar, the per-row input data of the pipeline
(`Open/High/Low/Close/Volume` columns plus the date index). -/
structure Bar where
  date : Int
  open_ : ℚ
  high : ℚ
  low : ℚ
  close : ℚ
  volume : ℚ
deriving DecidableEq, Repr

instance : Inhabited Bar := ⟨⟨0, 0, 0, 0, 0, 0⟩⟩

/-- Sequence a list of optional values: `some` of the list of values when
every entry is defined, otherwise `none`.  This is how a pandas rolling
window behaves: one NaN poisons the aggregate. -/
def seqOption {α : Type} : List (Option α) → Option (List α)
  | [] => some []
  | none :: _ => none
  | some x :: xs => (seqOption xs).map (x :: ·)

/-- Number of leading `none` (NaN) entries of a column: the warm-up length. -/
def leadingNones {α : Type} : List (Option α) → Nat
  | [] => 0
  | none :: xs => leadingNones xs + 1
  | some _ :: _ => 0

/-- Arithmetic mean of a list, as pandas computes a full-window rolling mean. -/
def mean (ys : List ℚ) : ℚ := ys.sum / (ys.length : ℚ)

/-- Minimum of a list (`rolling(...).min()` on a full window; 0 on `[]`,
which never occurs in-range). -/
def listMin : List ℚ → ℚ
  | [] => 0
  | x :: xs => xs.foldl min x

/-- Maximum of a list (`rolling(...).max()` on a full window). -/
def listMax : List ℚ → ℚ
  | [] => 0
  | x :: xs => xs.foldl max x

/-- Sample variance (pandas `ddof = 1`, the `rolling(...).std()` default,
before the square root). -/
def sampleVar (ys : List ℚ) : ℚ :=
  (ys.map (fun y => (y - mean ys) ^ 2)).sum / ((ys.length : ℚ) - 1)

/-- `rolling(window = w).f()` with the default `min_periods = w`: entry `i`
is defined exactly when `i + 1 ≥ w` and the `w`-window ending at `i` is
NaN-free, and then aggregates that window with `f`. -/
def rollingO (w : Nat) (f : List ℚ → ℚ) (xs : List (Option ℚ)) : List (Option ℚ) :=
  (List.range xs.length).map (fun i =>
    if i + 1 < w then none
    else (seqOption ((xs.drop (i + 1 - w)).take w)).map f)

/-- `Series.rolling(window = w).mean()` applied to a NaN-free column. -/
def smaCol (w : Nat) (xs : List ℚ) : List (Option ℚ) :=
  rollingO w mean (xs.map some)

/-- Elementwise combination of two aligned columns, propagating NaN. -/
def map2O (f : ℚ → ℚ → Option ℚ) (xs ys : List (Option ℚ)) : List (Option ℚ) :=
  (List.range xs.length).map (fun i =>
    match xs.getD i none, ys.getD i none with
    | some a, some b => f a b
    | _, _ => none)

/-- Elementwise combination of a NaN-free column with two optional columns. -/
def map3O (f : ℚ → ℚ → ℚ → Option ℚ) (cs : List ℚ) (ys zs : List (Option ℚ)) :
    List (Option ℚ) :=
  (List.range cs.length).map (fun i =>
    match ys.getD i none, zs.getD i none with
    | some b, some c => f (cs.getD i 0) b c
    | _, _ => none)

/-- `Series.diff()`: NaN at index 0, `x[i] - x[i-1]` afterwards. -/
def diffCol (xs : List ℚ) : List (Option ℚ) :=
  (List.range xs.length).map (fun i =>
    if i = 0 then none else some (xs.getD i 0 - xs.getD (i - 1) 0))

/-- `delta.where(delta > 0, 0)`: keep a positive delta, otherwise 0.  The
NaN at index 0 compares `False` against 0 and is therefore replaced by 0. -/
def whereGain : Option ℚ → ℚ
  | none => 0
  | some d => if 0 < d then d else 0

/-- `-delta.where(delta < 0, 0)`: the negated negative delta, otherwise 0
(NaN again replaced by 0 before the negation). -/
def whereLoss : Option ℚ → ℚ
  | none => 0
  | some d => if d < 0 then -d else 0

/-- `rs = avg_gain / avg_loss; rsi = 100 - 100 / (1 + rs)` with float
semantics at `avg_loss = 0`: a positive `avg_gain` makes `rs = inf` and the
expression saturates to exactly 100, while `0 / 0` is NaN and propagates. -/
def rsiOf (g l : ℚ) : Option ℚ :=
  if l = 0 then (if g = 0 then none else some 100)
  else some (100 - 100 / (1 + g / l))

/-- The `RSI` column of the source: 14-bar rolling means of the gain and
loss columns combined through `rsiOf`. -/
def rsiCol (closes : List ℚ) : List (Option ℚ) :=
  let delta := diffCol closes
  let gains := delta.map whereGain
  let losses := delta.map whereLoss
  map2O rsiOf (rollingO 14 mean (gains.map some)) (rollingO 14 mean (losses.map some))

/-- `100 * (close - low14) / (high14 - low14)`.  A zero range makes the
float expression non-numeric; with bar sanity `low ≤ close ≤ high` the
numerator is then 0 as well, so pandas produces NaN, modelled as `none`. -/
def stochKOf (c lo hi : ℚ) : Option ℚ :=
  if hi = lo then none else some (100 * (c - lo) / (hi - lo))

/-- The `Stoch %K` column: 14-bar rolling low/high ranges against the close. -/
def stochKCol (closes lows highs : List ℚ) : List (Option ℚ) :=
  map3O stochKOf closes
    (rollingO 14 listMin (lows.map some))
    (rollingO 14 listMax (highs.map some))

/-- The `Stoch %D` column: 3-bar rolling mean of `Stoch %K` (NaN windows
propagate). -/
def stochDCol (closes lows highs : List ℚ) : List (Option ℚ) :=
  rollingO 3 mean (stochKCol closes lows highs)

/-- Adjusted EMA recurrence (`ewm(span = s, adjust = True).mean()`):
`y_t = num_t / den_t` with `num_t = β num_(t-1) + x_t`,
`den_t = β den_(t-1) + 1`, `β = 1 - α`. -/
def emaAdjAux (β : ℚ) (num den : ℚ) : List ℚ → List ℚ
  | [] => []
  | x :: xs =>
    (β * num + x) / (β * den + 1) :: emaAdjAux β (β * num + x) (β * den + 1) xs

/-- `ewm(span = s, adjust = True).mean()` with `α = 2 / (s + 1)`. -/
def emaSpanAdj (s : Nat) (xs : List ℚ) : List ℚ :=
  emaAdjAux (1 - 2 / ((s : ℚ) + 1)) 0 0 xs

/-- Unadjusted EMA recurrence: `y_t = (1 - α) y_(t-1) + α x_t`. -/
def emaUnadjAux (α : ℚ) (prev : ℚ) : List ℚ → List ℚ
  | [] => []
  | x :: xs => ((1 - α) * prev + α * x) :: emaUnadjAux α ((1 - α) * prev + α * x) xs

/-- `ewm(span = s, adjust = False).mean()`: seeded with the first value. -/
def emaSpanUnadj (s : Nat) : List ℚ → List ℚ
  | [] => []
  | x :: xs => x :: emaUnadjAux (2 / ((s : ℚ) + 1)) x xs

/-- `MACD Line = ema12 - ema26` (both adjusted, spans 12 and 26). -/
def macdLineOf (closes : List ℚ) : List ℚ :=
  List.zipWith (fun a b => a - b) (emaSpanAdj 12 closes) (emaSpanAdj 26 closes)

/-- `MACD Signal = MACD Line.ewm(span = 9, adjust = False).mean()`. -/
def macdSignalOf (closes : List ℚ) : List ℚ :=
  emaSpanUnadj 9 (macdLineOf closes)

/-- `MACD Hist = MACD Line - MACD Signal`. -/
def macdHistOf (closes : List ℚ) : List ℚ :=
  List.zipWith (fun a b => a - b) (macdLineOf closes) (macdSignalOf closes)

/-- True range per bar: at index 0 the shifted close is NaN and the
row-wise `max` skips it, leaving `high - low`; afterwards
`max(high - low, |high - prevClose|, |low - prevClose|)`. -/
def trList : List Bar → List ℚ
  | [] => []
  | b :: rest =>
    (b.high - b.low) ::
      List.zipWith
        (fun cur prev =>
          max (cur.high - cur.low) (max |cur.high - prev.close| |cur.low - prev.close|))
        rest (b :: rest)

/-- The `ATR` column: 14-bar rolling mean of the true range. -/
def atrCol (s : List Bar) : List (Option ℚ) :=
  rollingO 14 mean ((trList s).map some)

/-- The `BB Middle` column plus the (host-sqrt) standard deviation column,
then `BB Upper/Lower = Middle ± 2·std`. -/
def bbStdCol (sqrtq : ℚ → ℚ) (closes : List ℚ) : List (Option ℚ) :=
  rollingO 20 (fun ys => sqrtq (sampleVar ys)) (closes.map some)

/-- `BB Upper = BB Middle + 2 * bb_std` (elementwise, NaN-propagating). -/
def bbUpperCol (sqrtq : ℚ → ℚ) (closes : List ℚ) : List (Option ℚ) :=
  map2O (fun m sd => some (m + 2 * sd)) (smaCol 20 closes) (bbStdCol sqrtq closes)

/-- `BB Lower = BB Middle - 2 * bb_std`. -/
def bbLowerCol (sqrtq : ℚ → ℚ) (closes : List ℚ) : List (Option ℚ) :=
  map2O (fun m sd => some (m - 2 * sd)) (smaCol 20 closes) (bbStdCol sqrtq closes)

/-- The per-symbol static metadata: `info.get('sector')` and
`info.get('industry')`, absence modelled as `none`. -/
structure Info where
  sector : Option String
  industry : Option String
deriving DecidableEq, Repr

/-- The augmented frame: the original bars (never modified, the indicator
assignments only add columns) plus every computed column and the broadcast
`Ticker/Sector/Industry` columns. -/
structure AugmentedSeries where
  bars : List Bar
  ticker : String
  sector : Option String
  industry : Option String
  ma50 : List (Option ℚ)
  ma200 : List (Option ℚ)
  macdLine : List (Option ℚ)
  macdSignal : List (Option ℚ)
  macdHist : List (Option ℚ)
  rsi : List (Option ℚ)
  bbMid : List (Option ℚ)
  bbUpper : List (Option ℚ)
  bbLower : List (Option ℚ)
  stochK : List (Option ℚ)
  stochD : List (Option ℚ)
  atr : List (Option ℚ)

/-- The indicator block of `fetch_stock_data` (lines 41–82): every column
assignment on `hist`, in source order, over the full series. -/
def augment (sqrtq : ℚ → ℚ) (info : Info) (t : String) (s : List Bar) :
    AugmentedSeries :=
  let closes := s.map Bar.close
  let highs := s.map Bar.high
  let lows := s.map Bar.low
  { bars := s
    ticker := t
    sector := info.sector
    industry := info.industry
    ma50 := smaCol 50 closes
    ma200 := smaCol 200 closes
    macdLine := (macdLineOf closes).map some
    macdSignal := (macdSignalOf closes).map some
    macdHist := (macdHistOf closes).map some
    rsi := rsiCol closes
    bbMid := smaCol 20 closes
    bbUpper := bbUpperCol sqrtq closes
    bbLower := bbLowerCol sqrtq closes
    stochK := stochKCol closes lows highs
    stochD := stochDCol closes lows highs
    atr := atrCol s }

/-- Outcome of the per-symbol computation: the augmented frame, or the
`len(hist) < 200` skip (the source prints the "Not enough data to compute
200D MA" line and computes no indicator column in that case). -/
inductive ComputeResult where
  | augmented (aug : AugmentedSeries)
  | insufficientData
deriving Inhabited

/-- `if len(hist) >= 200:` compute all columns `else` skip — the
IndicatorEngine contract with `minBars = 200`. -/
def compute (sqrtq : ℚ → ℚ) (info : Info) (t : String) (s : List Bar) :
    ComputeResult :=
  if 200 ≤ s.length then .augmented (augment sqrtq info t s) else .insufficientData

/-- One row of the reshaped report window: the original bar restored as
explicit columns (with a timezone-naive date) plus every indicator value
and the broadcast metadata at that row. -/
structure Row where
  bar : Bar
  ma50 : Option ℚ
  ma200 : Option ℚ
  macdLine : Option ℚ
  macdSignal : Option ℚ
  macdHist : Option ℚ
  rsi : Option ℚ
  bbMid : Option ℚ
  bbUpper : Option ℚ
  bbLower : Option ℚ
  stochK : Option ℚ
  stochD : Option ℚ
  atr : Option ℚ
  ticker : String
  sector : Option String
  industry : Option String

/-- Row `i` of an augmented frame. -/
def rowAt (aug : AugmentedSeries) (i : Nat) : Row :=
  { bar := aug.bars.getD i default
    ma50 := aug.ma50.getD i none
    ma200 := aug.ma200.getD i none
    macdLine := aug.macdLine.getD i none
    macdSignal := aug.macdSignal.getD i none
    macdHist := aug.macdHist.getD i none
    rsi := aug.rsi.getD i none
    bbMid := aug.bbMid.getD i none
    bbUpper := aug.bbUpper.getD i none
    bbLower := aug.bbLower.getD i none
    stochK := aug.stochK.getD i none
    stochD := aug.stochD.getD i none
    atr := aug.atr.getD i none
    ticker := aug.ticker
    sector := aug.sector
    industry := aug.industry }

/-- All rows of an augmented frame, in bar order. -/
def rowsOf (aug : AugmentedSeries) : List Row :=
  (List.range aug.bars.length).map (rowAt aug)

/-- `hist.tail(5).reset_index()` with the timezone made naive: the trailing
5 rows, order preserved (the date is already a naive integer here, so the
`tz_localize(None)` step is the identity). -/
def windowOf (aug : AugmentedSeries) : List Row :=
  (rowsOf aug).drop ((rowsOf aug).length - 5)

/-- Fetch-compute-extract for one symbol whose data is already at hand. -/
def mkWindow (sqrtq : ℚ → ℚ) (info : Info) (t : String) (s : List Bar) :
    List Row :=
  windowOf (augment sqrtq info t s)

/-- `all_data[ticker] = recent_hist` on a Python dict: overwrite in place
when the key exists (keeping its insertion position), append otherwise. -/
def dictInsert (m : List (String × List Row)) (k : String) (v : List Row) :
    List (String × List Row) :=
  if m.any (fun p => p.1 == k) then
    m.map (fun p => if p.1 == k then (k, v) else p)
  else m ++ [(k, v)]

/-- The per-ticker body of the batch loop: any error raised while fetching
the info/history (the `Except.error` case) is caught by the
`except Exception` arm and the loop continues; a successful fetch goes
through the 200-bar gate and, when passed, records the trailing window. -/
def processTicker (sqrtq : ℚ → ℚ) (fetch : String → Except String (Info × List Bar))
    (acc : List (String × List Row)) (t : String) : List (String × List Row) :=
  match fetch t with
  | .error _ => acc
  | .ok (info, hist) =>
    match compute sqrtq info t hist with
    | .augmented aug => dictInsert acc t (windowOf aug)
    | .insufficientData => acc

/-- Split a list into consecutive chunks of size `n + 1`
(`tickers[i:i+batch_size]` for `i in range(0, len, batch_size)`). -/
def chunksPos (n : Nat) : List α → List (List α)
  | [] => []
  | x :: xs => (x :: xs.take n) :: chunksPos n (xs.drop n)
termination_by l => l.length
decreasing_by simp [List.length_drop]; omega

/-- Chunks of size `n` for a positive `n` (the source uses `batch_size = 50`;
Python's `range` step must be positive, so `n = 0` is never exercised and is
given the harmless size-1 meaning). -/
def chunks (n : Nat) (l : List α) : List (List α) := chunksPos (n - 1) l

/-- `fetch_stock_data` with the batch size exposed: iterate the batches in
order and run the per-ticker loop over each, accumulating `all_data`. -/
def fetchStockDataB (sqrtq : ℚ → ℚ) (batchSize : Nat)
    (fetch : String → Except String (Info × List Bar)) (tickers : List String) :
    List (String × List Row) :=
  (chunks batchSize tickers).foldl
    (fun acc batch => batch.foldl (processTicker sqrtq fetch) acc) []

/-- `fetch_stock_data` as in the source: `batch_size = 50`. -/
def fetchStockData (sqrtq : ℚ → ℚ)
    (fetch : String → Except String (Info × List Bar)) (tickers : List String) :
    List (String × List Row) :=
  fetchStockDataB sqrtq 50 fetch tickers

/-- The written artifact: the Summary sheet (the most recent row of every
non-empty per-ticker window, in dict order) and one sheet per ticker, the
sheet name truncated to 31 characters. -/
structure Report where
  summary : List Row
  sheets : List (String × List Row)
deriving Inhabited

/-- The Excel-writing block: `iloc[-1]` of each non-empty window into the
Summary sheet, then each non-empty window under its truncated sheet name. -/
def buildReport (d : List (String × List Row)) : Report :=
  { summary := d.filterMap (fun p => p.2.getLast?)
    sheets := d.filterMap (fun p =>
      if p.2.isEmpty then none else some (p.1.take 31, p.2)) }

/-- Outcome of the top-level script: either the report artifact is written,
or the ticker list was empty and the run ends with the "No tickers
retrieved" message, writing nothing. -/
inductive RunOutcome where
  | report (r : Report)
  | noTickers
deriving Inhabited

/-- The module-level flow (lines 107–140): `if sp500_tickers:` process and
write the report, `else` print the message and write nothing. -/
def mainRun (sqrtq : ℚ → ℚ) (fetch : String → Except String (Info × List Bar))
    (tickers : List String) : RunOutcome :=
  if tickers.isEmpty then .noTickers
  else .report (buildReport (fetchStockData sqrtq fetch tickers))

/-! ### Basic lemmas about the column combinators -/

theorem seqOption_map_some {α : Type} (l : List α) :
    seqOption (l.map some) = some l := by
  induction l with
  | nil => rfl
  | cons x xs ih => simp [seqOption, ih]

theorem seqOption_eq_none {α : Type} {l : List (Option α)} (h : none ∈ l) :
    seqOption l = none := by
  induction l with
  | nil => simp at h
  | cons x xs ih =>
    cases x with
    | none => rfl
    | some v =>
      simp only [List.mem_cons] at h
      rcases h with h | h
      · exact absurd h.symm (Option.some_ne_none v)
      · simp [seqOption, ih h]

theorem seqOption_mem {α : Type} :
    ∀ {l : List (Option α)} {ys : List α}, seqOption l = some ys →
      ∀ y ∈ ys, some y ∈ l := by
  intro l
  induction l with
  | nil =>
    intro ys h y hy
    simp [seqOption] at h
    subst h
    simp at hy
  | cons x xs ih =>
    intro ys h y hy
    cases x with
    | none => simp [seqOption] at h
    | some v =>
      cases hseq : seqOption xs with
      | none => simp [seqOption, hseq] at h
      | some zs =>
        simp only [seqOption, hseq, Option.map_some] at h
        cases h
        simp only [List.mem_cons] at hy
        rcases hy with rfl | hy
        · simp
        · exact List.mem_cons_of_mem _ (ih hseq y hy)

theorem seqOption_length {α : Type} :
    ∀ {l : List (Option α)} {ys : List α}, seqOption l = some ys →
      ys.length = l.length := by
  intro l
  induction l with
  | nil =>
    intro ys h
    simp [seqOption] at h
    subst h
    rfl
  | cons x xs ih =>
    intro ys h
    cases x with
    | none => simp [seqOption] at h
    | some v =>
      cases hseq : seqOption xs with
      | none => simp [seqOption, hseq] at h
      | some zs =>
        simp only [seqOption, hseq, Option.map_some] at h
        cases h
        simp [ih hseq]

theorem seqOption_isSome {α : Type} {l : List (Option α)}
    (h : ∀ x ∈ l, x ≠ none) : ∃ ys, seqOption l = some ys := by
  induction l with
  | nil => exact ⟨[], rfl⟩
  | cons x xs ih =>
    cases x with
    | none => exact absurd rfl (h none (by simp))
    | some v =>
      obtain ⟨ys, hys⟩ := ih (fun x hx => h x (List.mem_cons_of_mem _ hx))
      exact ⟨v :: ys, by simp [seqOption, hys]⟩

theorem leadingNones_eq {α : Type} :
    ∀ (l : List (Option α)) (k : Nat), k < l.length →
      (∀ i, i < k → l.getD i none = none) → l.getD k none ≠ none →
      leadingNones l = k := by
  intro l
  induction l with
  | nil => intro k hk; simp at hk
  | cons x xs ih =>
    intro k hk hnone hsome
    cases k with
    | zero =>
      cases x with
      | none => exact absurd rfl hsome
      | some v => rfl
    | succ k =>
      have hx : x = none := hnone 0 (Nat.succ_pos k)
      subst hx
      have : leadingNones xs = k :=
        ih k (Nat.lt_of_succ_lt_succ hk)
          (fun i hi => hnone (i + 1) (Nat.succ_lt_succ hi)) hsome
      simp [leadingNones, this]

theorem length_range_map {α : Type} (f : Nat → α) (n : Nat) :
    ((List.range n).map f).length = n := by
  simp

theorem getD_range_map {α : Type} (f : Nat → α) {n i : Nat} (d : α) (h : i < n) :
    ((List.range n).map f).getD i d = f i := by
  rw [List.getD_eq_getElem _ _ (by simpa using h)]
  simp

theorem rollingO_length (w : Nat) (f : List ℚ → ℚ) (xs : List (Option ℚ)) :
    (rollingO w f xs).length = xs.length :=
  length_range_map _ _

theorem rollingO_getD (w : Nat) (f : List ℚ → ℚ) (xs : List (Option ℚ))
    {i : Nat} (hi : i < xs.length) :
    (rollingO w f xs).getD i none =
      if i + 1 < w then none
      else (seqOption ((xs.drop (i + 1 - w)).take w)).map f :=
  getD_range_map _ _ hi

theorem rollingO_map_some_getD (w : Nat) (f : List ℚ → ℚ) (xs : List ℚ)
    {i : Nat} (hi : i < xs.length) :
    (rollingO w f (xs.map some)).getD i none =
      if i + 1 < w then none
      else some (f ((xs.drop (i + 1 - w)).take w)) := by
  rw [rollingO_getD w f _ (by simpa using hi)]
  rw [← List.map_drop, ← List.map_take, seqOption_map_some]
  rfl

theorem map2O_length (f : ℚ → ℚ → Option ℚ) (xs ys : List (Option ℚ)) :
    (map2O f xs ys).length = xs.length :=
  length_range_map _ _

theorem map2O_getD (f : ℚ → ℚ → Option ℚ) (xs ys : List (Option ℚ))
    {i : Nat} (hi : i < xs.length) :
    (map2O f xs ys).getD i none =
      match xs.getD i none, ys.getD i none with
      | some a, some b => f a b
      | _, _ => none :=
  getD_range_map _ _ hi

theorem map3O_length (f : ℚ → ℚ → ℚ → Option ℚ) (cs : List ℚ)
    (ys zs : List (Option ℚ)) : (map3O f cs ys zs).length = cs.length :=
  length_range_map _ _

theorem map3O_getD (f : ℚ → ℚ → ℚ → Option ℚ) (cs : List ℚ)
    (ys zs : List (Option ℚ)) {i : Nat} (hi : i < cs.length) :
    (map3O f cs ys zs).getD i none =
      match ys.getD i none, zs.getD i none with
      | some b, some c => f (cs.getD i 0) b c
      | _, _ => none :=
  getD_range_map _ _ hi

theorem diffCol_length (xs : List ℚ) : (diffCol xs).length = xs.length :=
  length_range_map _ _

theorem diffCol_getD (xs : List ℚ) {i : Nat} (hi : i < xs.length) :
    (diffCol xs).getD i none =
      if i = 0 then none else some (xs.getD i 0 - xs.getD (i - 1) 0) :=
  getD_range_map _ _ hi

/-! ### Lengths of the recursively defined columns -/

theorem emaAdjAux_length (β : ℚ) :
    ∀ (num den : ℚ) (xs : List ℚ), (emaAdjAux β num den xs).length = xs.length := by
  intro num den xs
  induction xs generalizing num den with
  | nil => rfl
  | cons x xs ih => simp [emaAdjAux, ih]

theorem emaSpanAdj_length (s : Nat) (xs : List ℚ) :
    (emaSpanAdj s xs).length = xs.length :=
  emaAdjAux_length _ _ _ _

theorem emaUnadjAux_length (α : ℚ) :
    ∀ (prev : ℚ) (xs : List ℚ), (emaUnadjAux α prev xs).length = xs.length := by
  intro prev xs
  induction xs generalizing prev with
  | nil => rfl
  | cons x xs ih => simp [emaUnadjAux, ih]

theorem emaSpanUnadj_length (s : Nat) (xs : List ℚ) :
    (emaSpanUnadj s xs).length = xs.length := by
  cases xs with
  | nil => rfl
  | cons x xs => simp [emaSpanUnadj, emaUnadjAux_length]

theorem macdLineOf_length (closes : List ℚ) :
    (macdLineOf closes).length = closes.length := by
  simp [macdLineOf, emaSpanAdj_length]

theorem macdSignalOf_length (closes : List ℚ) :
    (macdSignalOf closes).length = closes.length := by
  simp [macdSignalOf, emaSpanUnadj_length, macdLineOf_length]

theorem macdHistOf_length (closes : List ℚ) :
    (macdHistOf closes).length = closes.length := by
  simp [macdHistOf, macdLineOf_length, macdSignalOf_length]

theorem trList_length (s : List Bar) : (trList s).length = s.length := by
  cases s with
  | nil => rfl
  | cons b rest => simp [trList]

/-! ### Bounds for list minimum and maximum -/

theorem foldl_min_le_init (xs : List ℚ) (a : ℚ) : xs.foldl min a ≤ a := by
  induction xs generalizing a with
  | nil => exact le_refl a
  | cons x xs ih => exact le_trans (ih (min a x)) (min_le_left a x)

theorem foldl_min_le_mem {x : ℚ} {xs : List ℚ} (h : x ∈ xs) (a : ℚ) :
    xs.foldl min a ≤ x := by
  induction xs generalizing a with
  | nil => simp at h
  | cons y ys ih =>
    simp only [List.mem_cons] at h
    rcases h with rfl | h
    · exact le_trans (foldl_min_le_init ys (min a x)) (min_le_right a x)
    · exact ih h (min a y)

theorem listMin_le {x : ℚ} {l : List ℚ} (h : x ∈ l) : listMin l ≤ x := by
  cases l with
  | nil => simp at h
  | cons y ys =>
    simp only [List.mem_cons] at h
    rcases h with rfl | h
    · exact foldl_min_le_init ys x
    · exact foldl_min_le_mem h y

theorem le_foldl_max_init (xs : List ℚ) (a : ℚ) : a ≤ xs.foldl max a := by
  induction xs generalizing a with
  | nil => exact le_refl a
  | cons x xs ih => exact le_trans (le_max_left a x) (ih (max a x))

theorem le_foldl_max_mem {x : ℚ} {xs : List ℚ} (h : x ∈ xs) (a : ℚ) :
    x ≤ xs.foldl max a := by
  induction xs generalizing a with
  | nil => simp at h
  | cons y ys ih =>
    simp only [List.mem_cons] at h
    rcases h with rfl | h
    · exact le_trans (le_max_right a x) (le_foldl_max_init ys (max a x))
    · exact ih h (max a y)

theorem le_listMax {x : ℚ} {l : List ℚ} (h : x ∈ l) : x ≤ listMax l := by
  cases l with
  | nil => simp at h
  | cons y ys =>
    simp only [List.mem_cons] at h
    rcases h with rfl | h
    · exact le_foldl_max_init ys x
    · exact le_foldl_max_mem h y

/-! ### Rolling-window access -/

theorem window_length {α : Type} (xs : List α) {a w : Nat}
    (h : a + w ≤ xs.length) : ((xs.drop a).take w).length = w := by
  simp only [List.length_take, List.length_drop]
  omega

theorem window_getD {α : Type} (xs : List α) (d : α) {a w k : Nat} (hk : k < w)
    (h : a + k < xs.length) :
    ((xs.drop a).take w).getD k d = xs.getD (a + k) d := by
  have hlen : k < ((xs.drop a).take w).length := by
    simp only [List.length_take, List.length_drop]
    omega
  rw [List.getD_eq_getElem _ _ hlen, List.getElem_take, List.getElem_drop,
    List.getD_eq_getElem _ _ h]

theorem window_mem {α : Type} (xs : List α) (d : α) {a w k : Nat} (hk : k < w)
    (h : a + k < xs.length) :
    xs.getD (a + k) d ∈ (xs.drop a).take w := by
  have hlen : k < ((xs.drop a).take w).length := by
    simp only [List.length_take, List.length_drop]
    omega
  rw [← window_getD xs d hk h, List.getD_eq_getElem _ _ hlen]
  exact List.getElem_mem hlen

theorem window_elem_getD {α : Type} (xs : List α) (d : α) {a w : Nat} {x : α}
    (hx : x ∈ (xs.drop a).take w) :
    ∃ k, k < w ∧ a + k < xs.length ∧ x = xs.getD (a + k) d := by
  obtain ⟨k, hk, hkx⟩ := List.mem_iff_getElem.mp hx
  have hlen := hk
  simp only [List.length_take, List.length_drop] at hlen
  refine ⟨k, by omega, by omega, ?_⟩
  rw [← hkx, List.getElem_take, List.getElem_drop,
    List.getD_eq_getElem _ _ (by omega : a + k < xs.length)]

/-- The generic warm-up count: a full-window rolling aggregate of a NaN-free
column of length at least `w` has exactly `w - 1` leading NaNs. -/
theorem leadingNones_rollingO_map_some (w : Nat) (hw : 1 ≤ w)
    (f : List ℚ → ℚ) (xs : List ℚ) (h : w ≤ xs.length) :
    leadingNones (rollingO w f (xs.map some)) = w - 1 := by
  apply leadingNones_eq
  · rw [rollingO_length]
    simp only [List.length_map]
    omega
  · intro i hi
    rw [rollingO_map_some_getD w f xs (by omega)]
    simp only [if_pos (by omega : i + 1 < w)]
  · rw [rollingO_map_some_getD w f xs (by omega)]
    simp only [if_neg (by omega : ¬ w - 1 + 1 < w)]
    exact Option.some_ne_none _

/-! ### Batching is only a call pattern -/

theorem chunksPos_flatten_aux {α : Type} (n : Nat) :
    ∀ (k : Nat) (l : List α), l.length ≤ k → (chunksPos n l).flatten = l := by
  intro k
  induction k with
  | zero =>
    intro l hl
    cases l with
    | nil => simp [chunksPos]
    | cons x xs => simp at hl
  | succ k ih =>
    intro l hl
    cases l with
    | nil => simp [chunksPos]
    | cons x xs =>
      rw [chunksPos]
      simp only [List.flatten_cons]
      rw [ih (xs.drop n) (by simp only [List.length_drop]; simp at hl; omega)]
      rw [List.cons_append, List.take_append_drop]

theorem chunksPos_flatten {α : Type} (n : Nat) (l : List α) :
    (chunksPos n l).flatten = l :=
  chunksPos_flatten_aux n l.length l (le_refl _)

theorem foldl_flatten_eq {α β : Type} (f : β → α → β) :
    ∀ (L : List (List α)) (b : β),
      L.flatten.foldl f b = L.foldl (fun acc l => l.foldl f acc) b := by
  intro L
  induction L with
  | nil => intro b; rfl
  | cons l L ih =>
    intro b
    simp only [List.flatten_cons, List.foldl_append, List.foldl_cons]
    exact ih _

/-- Whatever the batch size, `fetch_stock_data` is the plain left fold of the
per-ticker body over the ticker list: grouping affects only the provider
call pattern. -/
theorem fetchStockDataB_eq_foldl (sqrtq : ℚ → ℚ) (batchSize : Nat)
    (fetch : String → Except String (Info × List Bar)) (tickers : List String) :
    fetchStockDataB sqrtq batchSize fetch tickers =
      tickers.foldl (processTicker sqrtq fetch) [] := by
  unfold fetchStockDataB
  rw [← foldl_flatten_eq, chunks, chunksPos_flatten]

/-! ### Keys of the accumulated dict -/

theorem mem_keys_dictInsert (m : List (String × List Row)) (k : String)
    (v : List Row) (u : String) :
    u ∈ (dictInsert m k v).map Prod.fst ↔ u ∈ m.map Prod.fst ∨ u = k := by
  unfold dictInsert
  split_ifs with h
  · rw [List.map_map]
    simp only [List.mem_map, Function.comp]
    constructor
    · rintro ⟨p, hp, hu⟩
      by_cases hpk : p.1 == k
      · right
        rw [← hu]
        simp [hpk]
      · left
        refine ⟨p, hp, ?_⟩
        rw [← hu]
        simp [hpk]
    · rintro (⟨p, hp, hu⟩ | rfl)
      · by_cases hpk : p.1 == k
        · refine ⟨p, hp, ?_⟩
          simp only [hpk, if_pos]
          rw [← hu]
          exact (beq_iff_eq.mp hpk).symm
        · refine ⟨p, hp, ?_⟩
          have huk : u ≠ k := by
            intro hh
            exact hpk (beq_iff_eq.mpr (hu.trans hh))
          simp [hpk, hu, huk]
      · obtain ⟨p, hp, hpk⟩ := List.any_eq_true.mp h
        refine ⟨p, hp, ?_⟩
        simp [hpk]
  · simp only [List.map_append, List.mem_append, List.map_cons, List.map_nil,
      List.mem_cons, List.not_mem_nil, or_false]

theorem notMem_keys_foldl (sqrtq : ℚ → ℚ)
    (fetch : String → Except String (Info × List Bar)) {t : String}
    {info : Info} {s : List Bar}
    (hf : fetch t = .ok (info, s)) (hlt : s.length < 200) :
    ∀ (l : List String) (acc : List (String × List Row)),
      t ∉ acc.map Prod.fst →
      t ∉ (l.foldl (processTicker sqrtq fetch) acc).map Prod.fst := by
  intro l
  induction l with
  | nil => intro acc h; exact h
  | cons u us ih =>
    intro acc h
    rw [List.foldl_cons]
    apply ih
    by_cases hu : u = t
    · subst hu
      simp only [processTicker, hf, compute, if_neg (by omega : ¬ 200 ≤ s.length)]
      exact h
    · cases hfe : fetch u with
      | error e => simpa only [processTicker, hfe] using h
      | ok p =>
        obtain ⟨i', h'⟩ := p
        simp only [processTicker, hfe]
        cases hc : compute sqrtq i' u h' with
        | insufficientData => exact h
        | augmented aug =>
          rw [mem_keys_dictInsert]
          rintro (hmem | rfl)
          · exact h hmem
          · exact hu rfl

/-! ### Claim theorems (batching, skipping, failure isolation, frame) -/

/-- Claim C7: for every list of identifiers and every per-identifier fetch
behaviour, running the batch with group size 50 (the source's
`batch_size`) and with group size 1 produces an identical `BatchResult`
(same keys mapped to the same report windows): grouping affects only the
call pattern, never the output. -/
theorem c7_grouping_transparent (sqrtq : ℚ → ℚ)
    (fetch : String → Except String (Info × List Bar)) (tickers : List String) :
    fetchStockData sqrtq fetch tickers = fetchStockDataB sqrtq 1 fetch tickers := by
  rw [fetchStockData, fetchStockDataB_eq_foldl, fetchStockDataB_eq_foldl]

/-- Claim C8: when the identifier list is empty (`SymbolSource` yielded no
symbols), the run ends early on the `else` branch with the "No tickers
retrieved" message and writes no report artifact at all — the outcome
carries no `Report`, rather than an empty or malformed one. -/
theorem c8_empty_tickers_no_report (sqrtq : ℚ → ℚ)
    (fetch : String → Except String (Info × List Bar)) :
    mainRun sqrtq fetch [] = .noTickers :=
  rfl

/-- Claim C2: a series of fewer than 200 bars (`minBars = 200`) makes
`compute` return the `InsufficientData` outcome instead of an augmented
frame (no rolling column is computed on that branch), and an instrument
whose fetched history is that short is excluded from the batch result,
whatever the batch size and ticker list. -/
theorem c2_insufficient_data_skipped (sqrtq : ℚ → ℚ) (info : Info) (t : String)
    (s : List Bar) (fetch : String → Except String (Info × List Bar))
    (batchSize : Nat) (tickers : List String)
    (hlt : s.length < 200) (hf : fetch t = .ok (info, s)) :
    compute sqrtq info t s = .insufficientData ∧
      t ∉ (fetchStockDataB sqrtq batchSize fetch tickers).map Prod.fst := by
  constructor
  · rw [compute, if_neg (by omega)]
  · rw [fetchStockDataB_eq_foldl]
    exact notMem_keys_foldl sqrtq fetch hf hlt tickers [] (by simp)

/-- Claim C4: in a batch of three identifiers where fetching the second
raises, the error is caught by the per-ticker `except` arm, the second
identifier is excluded, and the result holds exactly the first and third
identifiers' windows, in order; the error never propagates out of the run. -/
theorem c4_failure_isolated (sqrtq : ℚ → ℚ)
    (fetch : String → Except String (Info × List Bar))
    (a b c e : String) (ia ic : Info) (ha hc : List Bar)
    (hab : a ≠ b) (hbc : b ≠ c) (hac : a ≠ c)
    (hfa : fetch a = .ok (ia, ha)) (hla : 200 ≤ ha.length)
    (hfb : fetch b = .error e)
    (hfc : fetch c = .ok (ic, hc)) (hlc : 200 ≤ hc.length) :
    fetchStockData sqrtq fetch [a, b, c] =
      [(a, mkWindow sqrtq ia a ha), (c, mkWindow sqrtq ic c hc)] := by
  rw [fetchStockData, fetchStockDataB_eq_foldl]
  simp only [List.foldl_cons, List.foldl_nil]
  have h1 : processTicker sqrtq fetch [] a = [(a, mkWindow sqrtq ia a ha)] := by
    simp [processTicker, hfa, compute, hla, dictInsert, mkWindow]
  have h2 : processTicker sqrtq fetch [(a, mkWindow sqrtq ia a ha)] b =
      [(a, mkWindow sqrtq ia a ha)] := by
    simp [processTicker, hfb]
  have h3 : processTicker sqrtq fetch [(a, mkWindow sqrtq ia a ha)] c =
      [(a, mkWindow sqrtq ia a ha), (c, mkWindow sqrtq ic c hc)] := by
    simp [processTicker, hfc, compute, hlc, dictInsert, mkWindow, hac]
  rw [h1, h2, h3]

theorem range_map_getD {α : Type} (l : List α) (d : α) :
    (List.range l.length).map (fun i => l.getD i d) = l := by
  apply List.ext_getElem
  · simp
  · intro i h1 h2
    rw [List.getElem_map, List.getElem_range, List.getD_eq_getElem _ _ h2]

theorem rowsOf_map_bar (aug : AugmentedSeries) :
    (rowsOf aug).map Row.bar = aug.bars := by
  unfold rowsOf
  rw [List.map_map]
  exact range_map_getD aug.bars default

theorem rowsOf_length (aug : AugmentedSeries) :
    (rowsOf aug).length = aug.bars.length := by
  simp [rowsOf]

/-- Claim C9: `compute` only adds columns — the augmented frame carries the
original bars (open, high, low, close, volume, date) unchanged and in
order, so the extracted report window's rows agree with the input's last
five bars on all original columns. -/
theorem c9_frame_preserved (sqrtq : ℚ → ℚ) (info : Info) (t : String)
    (s : List Bar) (h : 200 ≤ s.length) :
    (augment sqrtq info t s).bars = s ∧
      (mkWindow sqrtq info t s).map Row.bar = s.drop (s.length - 5) := by
  refine ⟨rfl, ?_⟩
  unfold mkWindow windowOf
  rw [List.map_drop, rowsOf_map_bar]
  have hb : (augment sqrtq info t s).bars = s := rfl
  rw [hb, rowsOf_length, hb]

theorem getD_map_some_eq_some {l : List ℚ} {i : Nat} {x : ℚ}
    (h : (l.map some).getD i none = some x) :
    ∃ hi : i < l.length, l[i] = x := by
  by_cases hi : i < l.length
  · refine ⟨hi, ?_⟩
    rw [List.getD_eq_getElem _ _ (by simpa using hi), List.getElem_map] at h
    exact Option.some_inj.mp h
  · rw [List.getD_eq_default _ _ (by simpa using Nat.le_of_not_lt hi)] at h
    exact absurd h (by simp)

/-- Claim C5: at every bar where both are defined, the histogram column is
exactly the difference of the MACD line (adjusted 12-span EMA minus
adjusted 26-span EMA of the close) and the MACD signal (unadjusted 9-span
EMA of the line) — the columns `augment` computes. -/
theorem c5_macd_hist_identity (sqrtq : ℚ → ℚ) (info : Info) (t : String)
    (s : List Bar) (i : Nat) (x y : ℚ)
    (hx : (augment sqrtq info t s).macdLine.getD i none = some x)
    (hy : (augment sqrtq info t s).macdSignal.getD i none = some y) :
    (augment sqrtq info t s).macdHist.getD i none = some (x - y) := by
  have hx' : ((macdLineOf (s.map Bar.close)).map some).getD i none = some x := hx
  have hy' : ((macdSignalOf (s.map Bar.close)).map some).getD i none = some y := hy
  obtain ⟨hix, hgx⟩ := getD_map_some_eq_some hx'
  obtain ⟨hiy, hgy⟩ := getD_map_some_eq_some hy'
  have hih : i < (macdHistOf (s.map Bar.close)).length := by
    rw [macdHistOf_length]
    rw [macdLineOf_length] at hix
    exact hix
  show ((macdHistOf (s.map Bar.close)).map some).getD i none = some (x - y)
  rw [List.getD_eq_getElem _ _ (by simpa using hih), List.getElem_map]
  have : (macdHistOf (s.map Bar.close))[i] = x - y := by
    unfold macdHistOf
    rw [List.getElem_zipWith]
    rw [hgx, hgy]
  rw [this]

/-! ### Means of windows -/

theorem mean_eq_zero {l : List ℚ} (h : ∀ y ∈ l, y = 0) : mean l = 0 := by
  unfold mean
  rw [List.sum_eq_zero h]
  simp

theorem mean_pos {l : List ℚ} (hnn : ∀ y ∈ l, 0 ≤ y) {x : ℚ} (hx : x ∈ l)
    (hpos : 0 < x) : 0 < mean l := by
  have hsum : x ≤ l.sum := List.single_le_sum hnn x hx
  have hlen : 0 < l.length := List.length_pos.mpr (List.ne_nil_of_mem hx)
  exact div_pos (lt_of_lt_of_le hpos hsum) (by exact_mod_cast hlen)

theorem mean_nonneg {l : List ℚ} (hnn : ∀ y ∈ l, 0 ≤ y) : 0 ≤ mean l := by
  unfold mean
  have : (0 : ℚ) ≤ l.sum := List.sum_nonneg hnn
  positivity

theorem mean_le_of_le {l : List ℚ} {b : ℚ} (hb : 0 ≤ b) (h : ∀ y ∈ l, y ≤ b) :
    mean l ≤ b := by
  cases l with
  | nil => simpa [mean] using hb
  | cons x xs =>
    have hlen : 0 < ((x :: xs).length : ℚ) := by
      have : 0 < (x :: xs).length := by simp
      exact_mod_cast this
    have hsum : (x :: xs).sum ≤ ((x :: xs).length : ℚ) * b := by
      have h2 := List.sum_le_card_nsmul (x :: xs) b h
      simpa [nsmul_eq_mul] using h2
    unfold mean
    rw [div_le_iff₀ hlen]
    calc (x :: xs).sum ≤ ((x :: xs).length : ℚ) * b := hsum
    _ = b * ((x :: xs).length : ℚ) := by ring

/-! ### The gain and loss columns -/

theorem whereGain_nonneg (d : Option ℚ) : 0 ≤ whereGain d := by
  cases d with
  | none => exact le_refl 0
  | some v =>
    show 0 ≤ if 0 < v then v else 0
    split_ifs with h
    · exact le_of_lt h
    · exact le_refl 0

theorem whereLoss_nonneg (d : Option ℚ) : 0 ≤ whereLoss d := by
  cases d with
  | none => exact le_refl 0
  | some v =>
    show 0 ≤ if v < 0 then -v else 0
    split_ifs with h
    · linarith
    · exact le_refl 0

theorem gainLoss_length (f : Option ℚ → ℚ) (closes : List ℚ) :
    ((diffCol closes).map f).length = closes.length := by
  rw [List.length_map, diffCol_length]

theorem gainLoss_getD (f : Option ℚ → ℚ) (closes : List ℚ) {j : Nat}
    (hj : j < closes.length) :
    ((diffCol closes).map f).getD j 0 =
      f (if j = 0 then none else some (closes.getD j 0 - closes.getD (j - 1) 0)) := by
  have hdl : j < (diffCol closes).length := by rw [diffCol_length]; exact hj
  rw [List.getD_eq_getElem _ _ (by simpa using hdl), List.getElem_map]
  congr 1
  rw [← diffCol_getD closes hj, List.getD_eq_getElem _ _ hdl]

/-! ### Pointwise characterization of the RSI column -/

theorem rsiCol_length (closes : List ℚ) : (rsiCol closes).length = closes.length := by
  unfold rsiCol
  rw [map2O_length, rollingO_length, List.length_map, gainLoss_length]

theorem rsiCol_getD_lt (closes : List ℚ) {i : Nat} (hi : i < 13)
    (hin : i < closes.length) : (rsiCol closes).getD i none = none := by
  unfold rsiCol
  rw [map2O_getD _ _ _
    (by rw [rollingO_length, List.length_map, gainLoss_length]; exact hin)]
  rw [rollingO_map_some_getD 14 mean _ (by rw [gainLoss_length]; exact hin)]
  rw [if_pos (by omega : i + 1 < 14)]

theorem rsiCol_getD_ge (closes : List ℚ) {i : Nat} (hi13 : 13 ≤ i)
    (hin : i < closes.length) :
    (rsiCol closes).getD i none =
      rsiOf (mean ((((diffCol closes).map whereGain).drop (i - 13)).take 14))
            (mean ((((diffCol closes).map whereLoss).drop (i - 13)).take 14)) := by
  unfold rsiCol
  rw [map2O_getD _ _ _
    (by rw [rollingO_length, List.length_map, gainLoss_length]; exact hin)]
  rw [rollingO_map_some_getD 14 mean _ (by rw [gainLoss_length]; exact hin)]
  rw [rollingO_map_some_getD 14 mean _ (by rw [gainLoss_length]; exact hin)]
  have hiv : ¬ i + 1 < 14 := by omega
  rw [if_neg hiv, if_neg hiv]
  have ha : i + 1 - 14 = i - 13 := by omega
  rw [ha]

/-! ### Pointwise characterization of the Stochastic columns -/

theorem stochKCol_length (closes lows highs : List ℚ) :
    (stochKCol closes lows highs).length = closes.length := by
  unfold stochKCol
  rw [map3O_length]

theorem stochKCol_getD_lt (closes lows highs : List ℚ) {i : Nat} (hi : i < 13)
    (hll : lows.length = closes.length) (hin : i < closes.length) :
    (stochKCol closes lows highs).getD i none = none := by
  unfold stochKCol
  rw [map3O_getD _ _ _ _ hin]
  rw [rollingO_map_some_getD 14 listMin _ (by rw [hll]; exact hin)]
  rw [if_pos (by omega : i + 1 < 14)]

theorem stochKCol_getD_ge (closes lows highs : List ℚ) {i : Nat} (hi13 : 13 ≤ i)
    (hll : lows.length = closes.length) (hhl : highs.length = closes.length)
    (hin : i < closes.length) :
    (stochKCol closes lows highs).getD i none =
      stochKOf (closes.getD i 0)
        (listMin ((lows.drop (i - 13)).take 14))
        (listMax ((highs.drop (i - 13)).take 14)) := by
  unfold stochKCol
  rw [map3O_getD _ _ _ _ hin]
  rw [rollingO_map_some_getD 14 listMin _ (by rw [hll]; exact hin)]
  rw [rollingO_map_some_getD 14 listMax _ (by rw [hhl]; exact hin)]
  have hiv : ¬ i + 1 < 14 := by omega
  rw [if_neg hiv, if_neg hiv]
  have ha : i + 1 - 14 = i - 13 := by omega
  rw [ha]

/-! ### Gain and loss windows under monotone closes -/

theorem loss_mean_zero (closes : List ℚ) {a : Nat}
    (mono : ∀ k, k < 14 → 1 ≤ a + k →
      closes.getD (a + k - 1) 0 ≤ closes.getD (a + k) 0) :
    mean ((((diffCol closes).map whereLoss).drop a).take 14) = 0 := by
  apply mean_eq_zero
  intro y hy
  obtain ⟨k, hk, hak, hyeq⟩ := window_elem_getD _ (0 : ℚ) hy
  rw [gainLoss_length] at hak
  rw [hyeq, gainLoss_getD whereLoss closes hak]
  by_cases h0 : a + k = 0
  · rw [if_pos h0]
    rfl
  · rw [if_neg h0]
    have hd := mono k hk (by omega)
    show (if closes.getD (a + k) 0 - closes.getD (a + k - 1) 0 < 0 then
        -(closes.getD (a + k) 0 - closes.getD (a + k - 1) 0) else 0) = 0
    rw [if_neg (by linarith)]

theorem gain_mean_pos (closes : List ℚ) {a k : Nat} (hk : k < 14)
    (h1 : 1 ≤ a + k) (han : a + k < closes.length)
    (hlt : closes.getD (a + k - 1) 0 < closes.getD (a + k) 0) :
    0 < mean ((((diffCol closes).map whereGain).drop a).take 14) := by
  have hnn : ∀ y ∈ (((diffCol closes).map whereGain).drop a).take 14, 0 ≤ y := by
    intro y hy
    obtain ⟨k2, hk2, hak2, hyeq⟩ := window_elem_getD _ (0 : ℚ) hy
    rw [gainLoss_length] at hak2
    rw [hyeq, gainLoss_getD whereGain closes hak2]
    exact whereGain_nonneg _
  have hmem := window_mem ((diffCol closes).map whereGain) (0 : ℚ) hk
    (by rw [gainLoss_length]; exact han)
  apply mean_pos hnn hmem
  rw [gainLoss_getD whereGain closes han]
  rw [if_neg (by omega : ¬ a + k = 0)]
  show 0 < if 0 < closes.getD (a + k) 0 - closes.getD (a + k - 1) 0 then
      closes.getD (a + k) 0 - closes.getD (a + k - 1) 0 else 0
  rw [if_pos (by linarith)]
  linarith

theorem loss_mean_pos (closes : List ℚ) {a k : Nat} (hk : k < 14)
    (h1 : 1 ≤ a + k) (han : a + k < closes.length)
    (hlt : closes.getD (a + k) 0 < closes.getD (a + k - 1) 0) :
    0 < mean ((((diffCol closes).map whereLoss).drop a).take 14) := by
  have hnn : ∀ y ∈ (((diffCol closes).map whereLoss).drop a).take 14, 0 ≤ y := by
    intro y hy
    obtain ⟨k2, hk2, hak2, hyeq⟩ := window_elem_getD _ (0 : ℚ) hy
    rw [gainLoss_length] at hak2
    rw [hyeq, gainLoss_getD whereLoss closes hak2]
    exact whereLoss_nonneg _
  have hmem := window_mem ((diffCol closes).map whereLoss) (0 : ℚ) hk
    (by rw [gainLoss_length]; exact han)
  apply mean_pos hnn hmem
  rw [gainLoss_getD whereLoss closes han]
  rw [if_neg (by omega : ¬ a + k = 0)]
  show 0 < if closes.getD (a + k) 0 - closes.getD (a + k - 1) 0 < 0 then
      -(closes.getD (a + k) 0 - closes.getD (a + k - 1) 0) else 0
  rw [if_pos (by linarith)]
  linarith

/-- A synthetic flat 14-bar close series: non-decreasing, yet its RSI at
bar 13 is NaN, because `avg_gain = avg_loss = 0` makes `rs = 0/0` NaN. -/
def constCloses : List ℚ := List.replicate 14 100

/-- A strictly rising 14-bar close series: all losses are 0 and at least
one gain is positive. -/
def rampCloses : List ℚ := (List.range 14).map (fun j => (100 : ℚ) + j)

/-- Claim C3 counterexample: on a 14-bar window whose closes are constant —
hence non-decreasing, exactly the claim's premise — the code's RSI value at
that bar is NaN (`none`), not the claimed saturated 100: with every delta
zero, `rs = 0/0` is NaN and the engine propagates it. -/
theorem c3_counterexample :
    (∀ k, k < 14 → 1 ≤ k → constCloses.getD (k - 1) 0 ≤ constCloses.getD k 0) ∧
    (rsiCol constCloses).getD 13 none = none ∧
    (rsiCol constCloses).getD 13 none ≠ some 100 := by
  refine ⟨by with_unfolding_all decide, by with_unfolding_all decide,
    by with_unfolding_all decide⟩

/-- Claim C3 (amended): on every 14-bar window over which the closes are
non-decreasing and at least one close-to-close change is strictly positive
(so `avg_loss = 0 < avg_gain`), the RSI value at that bar is exactly 100 —
a defined value, not NaN; a window that is entirely flat instead yields
NaN, as `c3_counterexample` shows. -/
theorem c3_rsi_saturates (closes : List ℚ) (i : Nat) (hi13 : 13 ≤ i)
    (hin : i < closes.length)
    (mono : ∀ k, k < 14 → 1 ≤ i - 13 + k →
      closes.getD (i - 13 + k - 1) 0 ≤ closes.getD (i - 13 + k) 0)
    (strict : ∃ k, k < 14 ∧ 1 ≤ i - 13 + k ∧
      closes.getD (i - 13 + k - 1) 0 < closes.getD (i - 13 + k) 0) :
    (rsiCol closes).getD i none = some 100 := by
  rw [rsiCol_getD_ge closes hi13 hin]
  obtain ⟨k0, hk0, h1k0, hlt⟩ := strict
  have hl0 := loss_mean_zero closes mono
  have hg := gain_mean_pos closes hk0 h1k0 (by omega) hlt
  rw [hl0]
  unfold rsiOf
  rw [if_pos rfl, if_neg (ne_of_gt hg)]

/-- Witness for the amended C3 at a concrete strictly rising window. -/
theorem c3_witness : (rsiCol rampCloses).getD 13 none = some 100 :=
  c3_rsi_saturates rampCloses 13 (by decide) (by decide)
    (by with_unfolding_all decide) ⟨1, by with_unfolding_all decide⟩

/-! ### Warm-up counts of the remaining columns -/

theorem smaCol_length (w : Nat) (xs : List ℚ) :
    (smaCol w xs).length = xs.length := by
  rw [smaCol, rollingO_length, List.length_map]

theorem leadingNones_map2O_rolling (w : Nat) (hw : 1 ≤ w) (f1 f2 : List ℚ → ℚ)
    (g : ℚ → ℚ → Option ℚ) (hg : ∀ a b, g a b ≠ none) (xs : List ℚ)
    (h : w ≤ xs.length) :
    leadingNones
      (map2O g (rollingO w f1 (xs.map some)) (rollingO w f2 (xs.map some))) =
      w - 1 := by
  apply leadingNones_eq
  · rw [map2O_length, rollingO_length, List.length_map]
    omega
  · intro i hi
    rw [map2O_getD _ _ _ (by rw [rollingO_length, List.length_map]; omega)]
    rw [rollingO_map_some_getD w f1 xs (by omega)]
    rw [if_pos (by omega : i + 1 < w)]
  · rw [map2O_getD _ _ _ (by rw [rollingO_length, List.length_map]; omega)]
    rw [rollingO_map_some_getD w f1 xs (by omega),
      rollingO_map_some_getD w f2 xs (by omega)]
    have hnv : ¬ w - 1 + 1 < w := by omega
    rw [if_neg hnv, if_neg hnv]
    exact hg _ _

theorem rsiCol_getD13_ne_none (closes : List ℚ) (h14 : 14 ≤ closes.length)
    (hdelta : ∃ k, k < 13 ∧ closes.getD (k + 1) 0 ≠ closes.getD k 0) :
    (rsiCol closes).getD 13 none ≠ none := by
  rw [rsiCol_getD_ge closes (le_refl 13) (by omega)]
  obtain ⟨k0, hk0, hne⟩ := hdelta
  have h13 : (13 : Nat) - 13 = 0 := rfl
  rw [h13]
  rcases lt_trichotomy (closes.getD (k0 + 1) 0) (closes.getD k0 0) with hlt | heq | hgt
  · have hl := loss_mean_pos closes (a := 0) (k := k0 + 1) (by omega) (by omega)
      (by omega) (by simpa using hlt)
    unfold rsiOf
    split_ifs with h1 h2
    · exact absurd h1 (ne_of_gt hl)
    · exact Option.some_ne_none _
    · exact Option.some_ne_none _
  · exact absurd heq hne
  · have hg := gain_mean_pos closes (a := 0) (k := k0 + 1) (by omega) (by omega)
      (by omega) (by simpa using hgt)
    unfold rsiOf
    split_ifs with h1 h2
    · exact absurd h2 (ne_of_gt hg)
    · exact Option.some_ne_none _
    · exact Option.some_ne_none _

theorem stochKCol_getD_some (closes lows highs : List ℚ) {j : Nat}
    (hj13 : 13 ≤ j) (hjn : j < closes.length)
    (hll : lows.length = closes.length) (hhl : highs.length = closes.length)
    (hr : listMin ((lows.drop (j - 13)).take 14) ≠
      listMax ((highs.drop (j - 13)).take 14)) :
    (stochKCol closes lows highs).getD j none ≠ none := by
  rw [stochKCol_getD_ge closes lows highs hj13 hll hhl hjn]
  unfold stochKOf
  rw [if_neg (fun hh => hr hh.symm)]
  exact Option.some_ne_none _

/-- Claim C1 (amended): for a series of at least 200 bars whose first RSI
window sees at least one close-to-close change and whose first three 14-bar
high-low ranges are nonzero, every indicator column has the length of the
input and the leading-NaN counts are: `ma50` 49, `ma200` 199, `rsi` 13,
`bb_mid`/`bb_upper`/`bb_lower` 19, `stoch_k` 13, `stoch_d` 15, `atr` 13.
The spec's counts of 14 for `rsi` and `atr` do not hold on the code: the
`where(…, 0)` fill turns the NaN of `diff()` at bar 0 into a 0 gain/loss,
and the row-wise `max` skips the NaN shifted close at bar 0, so both
columns are defined from bar 13 on (see `c1_counterexample`). -/
theorem c1_warmup_counts (sqrtq : ℚ → ℚ) (info : Info) (t : String)
    (s : List Bar) (h200 : 200 ≤ s.length)
    (hdelta : ∃ k, k < 13 ∧
      (s.map Bar.close).getD (k + 1) 0 ≠ (s.map Bar.close).getD k 0)
    (hrange : ∀ k, k < 3 →
      listMin (((s.map Bar.low).drop k).take 14) ≠
        listMax (((s.map Bar.high).drop k).take 14)) :
    ((augment sqrtq info t s).ma50.length = s.length ∧
     (augment sqrtq info t s).ma200.length = s.length ∧
     (augment sqrtq info t s).macdLine.length = s.length ∧
     (augment sqrtq info t s).macdSignal.length = s.length ∧
     (augment sqrtq info t s).macdHist.length = s.length ∧
     (augment sqrtq info t s).rsi.length = s.length ∧
     (augment sqrtq info t s).bbMid.length = s.length ∧
     (augment sqrtq info t s).bbUpper.length = s.length ∧
     (augment sqrtq info t s).bbLower.length = s.length ∧
     (augment sqrtq info t s).stochK.length = s.length ∧
     (augment sqrtq info t s).stochD.length = s.length ∧
     (augment sqrtq info t s).atr.length = s.length) ∧
    (leadingNones (augment sqrtq info t s).ma50 = 49 ∧
     leadingNones (augment sqrtq info t s).ma200 = 199 ∧
     leadingNones (augment sqrtq info t s).rsi = 13 ∧
     leadingNones (augment sqrtq info t s).bbMid = 19 ∧
     leadingNones (augment sqrtq info t s).bbUpper = 19 ∧
     leadingNones (augment sqrtq info t s).bbLower = 19 ∧
     leadingNones (augment sqrtq info t s).stochK = 13 ∧
     leadingNones (augment sqrtq info t s).stochD = 15 ∧
     leadingNones (augment sqrtq info t s).atr = 13) := by
  have hcl : (s.map Bar.close).length = s.length := List.length_map _ _
  have hll : (s.map Bar.low).length = (s.map Bar.close).length := by simp
  have hhl : (s.map Bar.high).length = (s.map Bar.close).length := by simp
  refine ⟨⟨?_, ?_, ?_, ?_, ?_, ?_, ?_, ?_, ?_, ?_, ?_, ?_⟩,
    ?_, ?_, ?_, ?_, ?_, ?_, ?_, ?_, ?_⟩
  · show (smaCol 50 (s.map Bar.close)).length = s.length
    rw [smaCol_length, hcl]
  · show (smaCol 200 (s.map Bar.close)).length = s.length
    rw [smaCol_length, hcl]
  · show ((macdLineOf (s.map Bar.close)).map some).length = s.length
    rw [List.length_map, macdLineOf_length, hcl]
  · show ((macdSignalOf (s.map Bar.close)).map some).length = s.length
    rw [List.length_map, macdSignalOf_length, hcl]
  · show ((macdHistOf (s.map Bar.close)).map some).length = s.length
    rw [List.length_map, macdHistOf_length, hcl]
  · show (rsiCol (s.map Bar.close)).length = s.length
    rw [rsiCol_length, hcl]
  · show (smaCol 20 (s.map Bar.close)).length = s.length
    rw [smaCol_length, hcl]
  · show (bbUpperCol sqrtq (s.map Bar.close)).length = s.length
    rw [bbUpperCol, map2O_length, smaCol_length, hcl]
  · show (bbLowerCol sqrtq (s.map Bar.close)).length = s.length
    rw [bbLowerCol, map2O_length, smaCol_length, hcl]
  · show (stochKCol (s.map Bar.close) (s.map Bar.low) (s.map Bar.high)).length
      = s.length
    rw [stochKCol_length, hcl]
  · show (stochDCol (s.map Bar.close) (s.map Bar.low) (s.map Bar.high)).length
      = s.length
    rw [stochDCol, rollingO_length, stochKCol_length, hcl]
  · show (atrCol s).length = s.length
    rw [atrCol, rollingO_length, List.length_map, trList_length]
  · show leadingNones (smaCol 50 (s.map Bar.close)) = 49
    rw [smaCol,
      leadingNones_rollingO_map_some 50 (by omega) mean _ (by rw [hcl]; omega)]
  · show leadingNones (smaCol 200 (s.map Bar.close)) = 199
    rw [smaCol,
      leadingNones_rollingO_map_some 200 (by omega) mean _ (by rw [hcl]; omega)]
  · show leadingNones (rsiCol (s.map Bar.close)) = 13
    apply leadingNones_eq
    · rw [rsiCol_length, hcl]
      omega
    · intro i hi
      exact rsiCol_getD_lt _ (by omega) (by rw [hcl]; omega)
    · exact rsiCol_getD13_ne_none _ (by rw [hcl]; omega) hdelta
  · show leadingNones (smaCol 20 (s.map Bar.close)) = 19
    rw [smaCol,
      leadingNones_rollingO_map_some 20 (by omega) mean _ (by rw [hcl]; omega)]
  · show leadingNones (bbUpperCol sqrtq (s.map Bar.close)) = 19
    rw [bbUpperCol, smaCol, bbStdCol,
      leadingNones_map2O_rolling 20 (by omega) mean (fun ys => sqrtq (sampleVar ys))
        (fun m sd => some (m + 2 * sd)) (fun a b => Option.some_ne_none _)
        (s.map Bar.close) (by rw [hcl]; omega)]
  · show leadingNones (bbLowerCol sqrtq (s.map Bar.close)) = 19
    rw [bbLowerCol, smaCol, bbStdCol,
      leadingNones_map2O_rolling 20 (by omega) mean (fun ys => sqrtq (sampleVar ys))
        (fun m sd => some (m - 2 * sd)) (fun a b => Option.some_ne_none _)
        (s.map Bar.close) (by rw [hcl]; omega)]
  · show leadingNones
      (stochKCol (s.map Bar.close) (s.map Bar.low) (s.map Bar.high)) = 13
    apply leadingNones_eq
    · rw [stochKCol_length, hcl]
      omega
    · intro i hi
      exact stochKCol_getD_lt _ _ _ (by omega) hll (by rw [hcl]; omega)
    · apply stochKCol_getD_some _ _ _ (le_refl 13) (by rw [hcl]; omega) hll hhl
      have h0 : (13 : Nat) - 13 = 0 := rfl
      rw [h0]
      exact hrange 0 (by omega)
  · show leadingNones
      (stochDCol (s.map Bar.close) (s.map Bar.low) (s.map Bar.high)) = 15
    apply leadingNones_eq
    · rw [stochDCol, rollingO_length, stochKCol_length, hcl]
      omega
    · intro i hi
      rw [stochDCol,
        rollingO_getD 3 mean _ (by rw [stochKCol_length, hcl]; omega)]
      by_cases h2 : i + 1 < 3
      · rw [if_pos h2]
      · rw [if_neg h2]
        have hmem := window_mem
          (stochKCol (s.map Bar.close) (s.map Bar.low) (s.map Bar.high)) none
          (show 0 < 3 by omega)
          (show (i + 1 - 3) + 0 <
            (stochKCol (s.map Bar.close) (s.map Bar.low) (s.map Bar.high)).length
            by rw [stochKCol_length, hcl]; omega)
        simp only [Nat.add_zero] at hmem
        have hnone : (stochKCol (s.map Bar.close) (s.map Bar.low)
            (s.map Bar.high)).getD (i + 1 - 3) none = none :=
          stochKCol_getD_lt _ _ _ (by omega) hll (by rw [hcl]; omega)
        rw [hnone] at hmem
        rw [seqOption_eq_none hmem]
        rfl
    · rw [stochDCol,
        rollingO_getD 3 mean _ (by rw [stochKCol_length, hcl]; omega)]
      rw [if_neg (by omega : ¬ 15 + 1 < 3)]
      have ha : 15 + 1 - 3 = 13 := rfl
      rw [ha]
      have hall : ∀ x ∈ ((stochKCol (s.map Bar.close) (s.map Bar.low)
          (s.map Bar.high)).drop 13).take 3, x ≠ none := by
        intro x hx
        obtain ⟨k, hk, hak, hxeq⟩ := window_elem_getD _ none hx
        rw [stochKCol_length, hcl] at hak
        rw [hxeq]
        apply stochKCol_getD_some _ _ _ (by omega) (by rw [hcl]; omega) hll hhl
        have hka : 13 + k - 13 = k := by omega
        rw [hka]
        exact hrange k hk
      obtain ⟨ys, hys⟩ := seqOption_isSome hall
      rw [hys]
      exact Option.some_ne_none _
  · show leadingNones (atrCol s) = 13
    rw [atrCol,
      leadingNones_rollingO_map_some 14 (by omega) mean (trList s)
        (by rw [trList_length]; omega)]

/-- A concrete 200-bar series: closes alternate 100/101 (so every delta is
nonzero), highs 102, lows 99 (so every 14-bar range is 3, nonzero). -/
def cexBars : List Bar :=
  (List.range 200).map (fun j =>
    { date := j, open_ := 100, high := 102, low := 99,
      close := if j % 2 = 0 then 100 else 101, volume := 1000 })

set_option maxRecDepth 20000 in
/-- Claim C1 counterexample: on a well-behaved 200-bar series the RSI and
ATR columns have 13 leading NaNs, not the claimed 14.  `diff()` makes bar
0's delta NaN, but `where(delta > 0, 0)` compares NaN as `False` and
replaces it by 0, so the first full 14-gain window already ends at bar 13;
likewise the row-wise `max` that builds the true range skips the NaN
shifted close at bar 0, so `TR` is defined from bar 0 and `ATR` from bar
13. -/
theorem c1_counterexample :
    cexBars.length = 200 ∧
    leadingNones (augment id ⟨none, none⟩ "CEX" cexBars).rsi = 13 ∧
    leadingNones (augment id ⟨none, none⟩ "CEX" cexBars).rsi ≠ 14 ∧
    leadingNones (augment id ⟨none, none⟩ "CEX" cexBars).atr = 13 ∧
    leadingNones (augment id ⟨none, none⟩ "CEX" cexBars).atr ≠ 14 := by
  have h1 : cexBars.length = 200 := by with_unfolding_all decide
  have h2 : leadingNones (augment id ⟨none, none⟩ "CEX" cexBars).rsi = 13 := by
    with_unfolding_all decide
  have h3 : leadingNones (augment id ⟨none, none⟩ "CEX" cexBars).atr = 13 := by
    with_unfolding_all decide
  exact ⟨h1, h2, by rw [h2]; decide, h3, by rw [h3]; decide⟩

set_option maxRecDepth 20000 in
/-- Witness for the amended C1 at the concrete 200-bar series. -/
theorem c1_witness :
    ((augment id ⟨none, none⟩ "CEX" cexBars).ma50.length = cexBars.length ∧
     (augment id ⟨none, none⟩ "CEX" cexBars).ma200.length = cexBars.length ∧
     (augment id ⟨none, none⟩ "CEX" cexBars).macdLine.length = cexBars.length ∧
     (augment id ⟨none, none⟩ "CEX" cexBars).macdSignal.length = cexBars.length ∧
     (augment id ⟨none, none⟩ "CEX" cexBars).macdHist.length = cexBars.length ∧
     (augment id ⟨none, none⟩ "CEX" cexBars).rsi.length = cexBars.length ∧
     (augment id ⟨none, none⟩ "CEX" cexBars).bbMid.length = cexBars.length ∧
     (augment id ⟨none, none⟩ "CEX" cexBars).bbUpper.length = cexBars.length ∧
     (augment id ⟨none, none⟩ "CEX" cexBars).bbLower.length = cexBars.length ∧
     (augment id ⟨none, none⟩ "CEX" cexBars).stochK.length = cexBars.length ∧
     (augment id ⟨none, none⟩ "CEX" cexBars).stochD.length = cexBars.length ∧
     (augment id ⟨none, none⟩ "CEX" cexBars).atr.length = cexBars.length) ∧
    (leadingNones (augment id ⟨none, none⟩ "CEX" cexBars).ma50 = 49 ∧
     leadingNones (augment id ⟨none, none⟩ "CEX" cexBars).ma200 = 199 ∧
     leadingNones (augment id ⟨none, none⟩ "CEX" cexBars).rsi = 13 ∧
     leadingNones (augment id ⟨none, none⟩ "CEX" cexBars).bbMid = 19 ∧
     leadingNones (augment id ⟨none, none⟩ "CEX" cexBars).bbUpper = 19 ∧
     leadingNones (augment id ⟨none, none⟩ "CEX" cexBars).bbLower = 19 ∧
     leadingNones (augment id ⟨none, none⟩ "CEX" cexBars).stochK = 13 ∧
     leadingNones (augment id ⟨none, none⟩ "CEX" cexBars).stochD = 15 ∧
     leadingNones (augment id ⟨none, none⟩ "CEX" cexBars).atr = 13) :=
  c1_warmup_counts id ⟨none, none⟩ "CEX" cexBars
    (by with_unfolding_all decide)
    ⟨0, by with_unfolding_all decide⟩
    (by with_unfolding_all decide)

/-! ### The zero-range Stochastic boundary and the [0, 100] bounds -/

/-- A 14-bar series whose bars are all at the same level: every 14-bar
high-low range is zero. -/
def flatBars : List Bar :=
  (List.range 14).map (fun j =>
    { date := j, open_ := 100, high := 100, low := 100, close := 100,
      volume := 0 })

/-- Claim C6: at a bar whose 14-bar rolling high equals its rolling low
(zero range), the Stochastic %K computation is total — the embedded
pipeline is a total function, the division-by-zero case is an explicit
branch — and the %K entry is the explicit undefined value, not a crash.
The bar-sanity hypothesis `low ≤ close ≤ high` pins the float numerator to
0 there, which is exactly the `0/0 = NaN` case the model's `none` mirrors. -/
theorem c6_zero_range_undefined (sqrtq : ℚ → ℚ) (info : Info) (t : String)
    (s : List Bar) (i : Nat) (hi13 : 13 ≤ i) (hin : i < s.length)
    (hsane : ∀ b ∈ s, b.low ≤ b.close ∧ b.close ≤ b.high)
    (hflat : listMax (((s.map Bar.high).drop (i - 13)).take 14) =
      listMin (((s.map Bar.low).drop (i - 13)).take 14)) :
    (augment sqrtq info t s).stochK.getD i none = none := by
  have hcl : (s.map Bar.close).length = s.length := List.length_map _ _
  have hll : (s.map Bar.low).length = (s.map Bar.close).length := by simp
  have hhl : (s.map Bar.high).length = (s.map Bar.close).length := by simp
  show (stochKCol (s.map Bar.close) (s.map Bar.low) (s.map Bar.high)).getD i none
    = none
  rw [stochKCol_getD_ge _ _ _ hi13 hll hhl (by rw [hcl]; exact hin)]
  unfold stochKOf
  rw [if_pos hflat]

set_option maxRecDepth 20000 in
/-- Witness for C6 at the concrete flat series. -/
theorem c6_witness :
    (augment id ⟨none, none⟩ "FLAT" flatBars).stochK.getD 13 none = none :=
  c6_zero_range_undefined id ⟨none, none⟩ "FLAT" flatBars 13 (by decide)
    (by with_unfolding_all decide) (by with_unfolding_all decide)
    (by with_unfolding_all decide)

theorem stochK_bounds (closes lows highs : List ℚ)
    (hll : lows.length = closes.length) (hhl : highs.length = closes.length)
    (hsane : ∀ j, j < closes.length →
      lows.getD j 0 ≤ closes.getD j 0 ∧ closes.getD j 0 ≤ highs.getD j 0)
    {j : Nat} {v : ℚ}
    (hv : (stochKCol closes lows highs).getD j none = some v) :
    0 ≤ v ∧ v ≤ 100 := by
  by_cases hj : j < closes.length
  case neg =>
    rw [List.getD_eq_default _ _ (by rw [stochKCol_length]; omega)] at hv
    exact absurd hv (by simp)
  by_cases hj13 : 13 ≤ j
  case neg =>
    rw [stochKCol_getD_lt _ _ _ (by omega) hll hj] at hv
    exact absurd hv (by simp)
  rw [stochKCol_getD_ge closes lows highs hj13 hll hhl hj] at hv
  set lo := listMin ((lows.drop (j - 13)).take 14) with hlo_def
  set hi := listMax ((highs.drop (j - 13)).take 14) with hhi_def
  unfold stochKOf at hv
  by_cases heq : hi = lo
  · rw [if_pos heq] at hv
    exact absurd hv (by simp)
  · rw [if_neg heq] at hv
    have hv' : v = 100 * (closes.getD j 0 - lo) / (hi - lo) :=
      (Option.some_inj.mp hv).symm
    have hj' : j - 13 + 13 = j := by omega
    have hmem_lo : lows.getD j 0 ∈ (lows.drop (j - 13)).take 14 := by
      have hm := window_mem lows (0 : ℚ) (show 13 < 14 by omega)
        (show (j - 13) + 13 < lows.length by rw [hll]; omega)
      rw [hj'] at hm
      exact hm
    have hmem_hi : highs.getD j 0 ∈ (highs.drop (j - 13)).take 14 := by
      have hm := window_mem highs (0 : ℚ) (show 13 < 14 by omega)
        (show (j - 13) + 13 < highs.length by rw [hhl]; omega)
      rw [hj'] at hm
      exact hm
    have hsj := hsane j hj
    have h1 : lo ≤ closes.getD j 0 := le_trans (listMin_le hmem_lo) hsj.1
    have h2 : closes.getD j 0 ≤ hi := le_trans hsj.2 (le_listMax hmem_hi)
    have hlohi : lo < hi :=
      lt_of_le_of_ne (le_trans h1 h2) (fun hh => heq hh.symm)
    constructor
    · rw [hv']
      apply div_nonneg
      · have : 0 ≤ closes.getD j 0 - lo := by linarith
        nlinarith
      · linarith
    · rw [hv', div_le_iff₀ (by linarith : (0 : ℚ) < hi - lo)]
      nlinarith

theorem stochD_bounds (closes lows highs : List ℚ)
    (hll : lows.length = closes.length) (hhl : highs.length = closes.length)
    (hsane : ∀ j, j < closes.length →
      lows.getD j 0 ≤ closes.getD j 0 ∧ closes.getD j 0 ≤ highs.getD j 0)
    {j : Nat} {v : ℚ}
    (hv : (stochDCol closes lows highs).getD j none = some v) :
    0 ≤ v ∧ v ≤ 100 := by
  by_cases hj : j < closes.length
  case neg =>
    rw [List.getD_eq_default _ _
      (by rw [stochDCol, rollingO_length, stochKCol_length]; omega)] at hv
    exact absurd hv (by simp)
  rw [stochDCol,
    rollingO_getD 3 mean _ (by rw [stochKCol_length]; exact hj)] at hv
  by_cases h3 : j + 1 < 3
  · rw [if_pos h3] at hv
    exact absurd hv (by simp)
  rw [if_neg h3] at hv
  cases hs : seqOption (((stochKCol closes lows highs).drop (j + 1 - 3)).take 3) with
  | none =>
    rw [hs] at hv
    exact absurd hv (by simp)
  | some ys =>
    rw [hs] at hv
    have hv' : v = mean ys := (Option.some_inj.mp hv).symm
    have hbound : ∀ y ∈ ys, 0 ≤ y ∧ y ≤ 100 := by
      intro y hy
      have hmem : some y ∈
          ((stochKCol closes lows highs).drop (j + 1 - 3)).take 3 :=
        seqOption_mem hs y hy
      have hmem2 : some y ∈ stochKCol closes lows highs :=
        List.mem_of_mem_drop (List.mem_of_mem_take hmem)
      obtain ⟨k, hk, hkeq⟩ := List.mem_iff_getElem.mp hmem2
      have hgd : (stochKCol closes lows highs).getD k none = some y := by
        rw [List.getD_eq_getElem _ _ hk, hkeq]
      exact stochK_bounds closes lows highs hll hhl hsane hgd
    constructor
    · rw [hv']
      exact mean_nonneg (fun y hy => (hbound y hy).1)
    · rw [hv']
      exact mean_le_of_le (by norm_num) (fun y hy => (hbound y hy).2)

/-- Claim C10: on a series whose bars all satisfy `low ≤ close ≤ high`,
every defined Stochastic %K value lies in [0, 100], and so does every
defined %D value (a 3-bar mean of such values). -/
theorem c10_stoch_bounded (sqrtq : ℚ → ℚ) (info : Info) (t : String)
    (s : List Bar) (i : Nat) (v : ℚ)
    (hsane : ∀ b ∈ s, b.low ≤ b.close ∧ b.close ≤ b.high) :
    ((augment sqrtq info t s).stochK.getD i none = some v →
      0 ≤ v ∧ v ≤ 100) ∧
    ((augment sqrtq info t s).stochD.getD i none = some v →
      0 ≤ v ∧ v ≤ 100) := by
  have hll : (s.map Bar.low).length = (s.map Bar.close).length := by simp
  have hhl : (s.map Bar.high).length = (s.map Bar.close).length := by simp
  have hsane' : ∀ j, j < (s.map Bar.close).length →
      (s.map Bar.low).getD j 0 ≤ (s.map Bar.close).getD j 0 ∧
      (s.map Bar.close).getD j 0 ≤ (s.map Bar.high).getD j 0 := by
    intro j hj
    have hjs : j < s.length := by simpa using hj
    rw [List.getD_eq_getElem _ _ (by simpa using hjs),
      List.getD_eq_getElem _ _ (by simpa using hjs),
      List.getD_eq_getElem _ _ (by simpa using hjs)]
    simp only [List.getElem_map]
    exact hsane s[j] (List.getElem_mem hjs)
  constructor
  · intro hv
    have hv' : (stochKCol (s.map Bar.close) (s.map Bar.low)
        (s.map Bar.high)).getD i none = some v := hv
    exact stochK_bounds _ _ _ hll hhl hsane' hv'
  · intro hv
    have hv' : (stochDCol (s.map Bar.close) (s.map Bar.low)
        (s.map Bar.high)).getD i none = some v := hv
    exact stochD_bounds _ _ _ hll hhl hsane' hv'

set_option maxRecDepth 20000 in
/-- Witness for C10 at the concrete 200-bar series (%K at bar 13 is
100·(101−99)/(102−99) = 200/3). -/
theorem c10_witness :
    ((augment id ⟨none, none⟩ "CEX" cexBars).stochK.getD 13 none =
      some (200 / 3) → 0 ≤ (200 / 3 : ℚ) ∧ (200 / 3 : ℚ) ≤ 100) ∧
    ((augment id ⟨none, none⟩ "CEX" cexBars).stochD.getD 13 none =
      some (200 / 3) → 0 ≤ (200 / 3 : ℚ) ∧ (200 / 3 : ℚ) ≤ 100) :=
  c10_stoch_bounded id ⟨none, none⟩ "CEX" cexBars 13 (200 / 3)
    (by with_unfolding_all decide)

/-! ### Remaining witnesses -/

/-- A fetch stub that always succeeds with the short flat series. -/
def shortFetch : String → Except String (Info × List Bar) :=
  fun _ => .ok (⟨none, none⟩, flatBars)

/-- Witness for C2: the 14-bar flat series is below `minBars = 200`. -/
theorem c2_witness :
    compute id ⟨none, none⟩ "A" flatBars = .insufficientData ∧
      "A" ∉ (fetchStockDataB id 50 shortFetch ["A", "B"]).map Prod.fst :=
  c2_insufficient_data_skipped id ⟨none, none⟩ "A" flatBars shortFetch 50
    ["A", "B"] (by with_unfolding_all decide) rfl

/-- Metadata used by the concrete batch runs. -/
def demoInfo : Info := ⟨some "Tech", none⟩

/-- A fetch stub that raises on the second identifier and succeeds with the
200-bar series otherwise. -/
def demoFetch : String → Except String (Info × List Bar) := fun t =>
  if t = "B" then .error "network error" else .ok (demoInfo, cexBars)

set_option maxRecDepth 20000 in
/-- Witness for C4 at the concrete three-identifier batch. -/
theorem c4_witness :
    fetchStockData id demoFetch ["A", "B", "C"] =
      [("A", mkWindow id demoInfo "A" cexBars),
       ("C", mkWindow id demoInfo "C" cexBars)] := by
  apply c4_failure_isolated id demoFetch "A" "B" "C" "network error"
    demoInfo demoInfo cexBars cexBars
  · decide
  · decide
  · decide
  · with_unfolding_all rfl
  · with_unfolding_all decide
  · with_unfolding_all rfl
  · with_unfolding_all rfl
  · with_unfolding_all decide

set_option maxRecDepth 20000 in
/-- Witness for C9 at the concrete 200-bar series. -/
theorem c9_witness :
    (augment id demoInfo "A" cexBars).bars = cexBars ∧
      (mkWindow id demoInfo "A" cexBars).map Row.bar =
        cexBars.drop (cexBars.length - 5) :=
  c9_frame_preserved id demoInfo "A" cexBars (by with_unfolding_all decide)

/-- A one-bar series, enough to exercise the MACD identity at bar 0. -/
def tinyBars : List Bar :=
  [{ date := 0, open_ := 1, high := 1, low := 1, close := 1, volume := 1 }]

/-- Witness for C5 at the one-bar series (line and signal are both 0 at
bar 0, so the histogram is 0 − 0). -/
theorem c5_witness :
    (augment id ⟨none, none⟩ "T" tinyBars).macdHist.getD 0 none =
      some ((0 : ℚ) - 0) :=
  c5_macd_hist_identity id ⟨none, none⟩ "T" tinyBars 0 0 0
    (by with_unfolding_all decide) (by with_unfolding_all decide)

end FinanceMerged
